import Mathlib

/-!
Shallow embedding of the MFCG repository: the generic 3-component vector
type `Vec3<T>` of `src/unnamed/part_000` (namespace `mfcg`), its methods,
its free-function counterparts, and the minimal duplicate type of
`src/MFCG/include/Vec3.h` (namespace `MFCG`).

Modelling conventions:
- The component type `T` is embedded as a type `α`.  Field-like
  instantiations (`float`, `double`) are modelled with exact arithmetic
  over a `LinearOrderedField`; theorems about `float`/`double` behaviour
  are stated over `ℝ` with `Real.sqrt` as the square-root operation.
- `std::sqrt` is passed in as an explicit function `sqrt : α → α`, since
  its meaning depends on the instantiation of `T`.
- The `T = int` instantiation (the repository typedef `Vec3i`) is
  modelled separately over `ℤ`: there `T len = sqrt(...)` converts the
  `double` result of `std::sqrt` back to `int`, truncating toward zero,
  and `1 / len` is C++ integer division.
- In-place mutation (`normalize`) is modelled by explicit state passing:
  the function returns the final state of the mutated object.
-/

namespace mfcg

/-- `mfcg::Vec3<T>` (src/unnamed/part_000, lines 7-116): a plain aggregate
of three components `x, y, z` of the component type. -/
structure Vec3 (α : Type) where
  x : α
  y : α
  z : α
deriving DecidableEq

variable {α : Type}

/-- Default constructor `Vec3() : x(T(0)), y(T(0)), z(T(0))` (line 16). -/
def Vec3.mkZero (α : Type) [Zero α] : Vec3 α := ⟨0, 0, 0⟩

/-- Broadcast constructor `Vec3(const T& t) : x(t), y(t), z(t)` (line 18). -/
def Vec3.mkBroadcast (t : α) : Vec3 α := ⟨t, t, t⟩

/-- Componentwise constructor `Vec3(T _x, T _y, T _z)` (line 20). -/
def Vec3.mkXYZ (x y z : α) : Vec3 α := ⟨x, y, z⟩

/-- Method `T Vec3<T>::magnitude()` (lines 31-34):
`return sqrt(x * x + y * y + z * z);`. -/
def Vec3.magnitude [Add α] [Mul α] (sqrt : α → α) (v : Vec3 α) : α :=
  sqrt (v.x * v.x + v.y * v.y + v.z * v.z)

/-- Method `T Vec3<T>::sqrMagnitude()` (lines 47-50):
`return x * x + y * y + z * z;`. -/
def Vec3.sqrMagnitude [Add α] [Mul α] (v : Vec3 α) : α :=
  v.x * v.x + v.y * v.y + v.z * v.z

/-- Method `Vec3<T>& Vec3<T>::normalize()` (lines 61-72): computes
`len = magnitude()`; if `len > 0`, multiplies each component in place by
`lenInv = 1 / len`; otherwise leaves the components untouched.  The
result is the final state of `*this`. -/
def Vec3.normalize [LinearOrderedField α] (sqrt : α → α) (v : Vec3 α) : Vec3 α :=
  let len := v.magnitude sqrt
  if len > 0 then
    let lenInv := 1 / len
    ⟨v.x * lenInv, v.y * lenInv, v.z * lenInv⟩
  else
    v

/-- The full call semantics of the method `normalize` (lines 61-72): the
body mutates `*this` as in `Vec3.normalize` and then executes
`return *this;`, so the returned value (first component) is the state of
the receiver object after the mutation (second component). -/
def Vec3.normalizeCall [LinearOrderedField α] (sqrt : α → α) (v : Vec3 α) :
    Vec3 α × Vec3 α :=
  let vNew := v.normalize sqrt
  (vNew, vNew)

/-- Method `T Vec3<T>::dot(const Vec3<T>& v)` (lines 81-84):
`return x * v.x + y * v.y + z * v.z;`. -/
def Vec3.dot [Add α] [Mul α] (a v : Vec3 α) : α :=
  a.x * v.x + a.y * v.y + a.z * v.z

/-- Method `Vec3<T> Vec3<T>::cross(const Vec3<T>& v)` (lines 93-99). -/
def Vec3.cross [Sub α] [Mul α] (a v : Vec3 α) : Vec3 α :=
  ⟨a.y * v.z - a.z * v.y,
   a.z * v.x - a.x * v.z,
   a.x * v.y - a.y * v.x⟩

/-- `Vec3<T> Vec3<T>::operator+(const Vec3<T>& v)` (lines 102-105),
the `add` operation of the spec. -/
def Vec3.add [Add α] (a v : Vec3 α) : Vec3 α :=
  ⟨a.x + v.x, a.y + v.y, a.z + v.z⟩

/-- `Vec3<T> Vec3<T>::operator-(const Vec3<T>& v)` (lines 107-110),
the `sub` operation of the spec. -/
def Vec3.sub [Sub α] (a v : Vec3 α) : Vec3 α :=
  ⟨a.x - v.x, a.y - v.y, a.z - v.z⟩

/-- `Vec3<T> Vec3<T>::operator*(const T& s)` (lines 112-115),
the `scale` operation of the spec. -/
def Vec3.scale [Mul α] (a : Vec3 α) (s : α) : Vec3 α :=
  ⟨a.x * s, a.y * s, a.z * s⟩

/-- Free function `T magnitude(const Vec3<T>& v)` (lines 139-143):
`return sqrt(v.x * v.x + v.y * v.y + v.z * v.z);`. -/
def magnitudeF [Add α] [Mul α] (sqrt : α → α) (v : Vec3 α) : α :=
  sqrt (v.x * v.x + v.y * v.y + v.z * v.z)

/-- Free function `T sqrMagnitude(const Vec3<T>& v)` (lines 159-163). -/
def sqrMagnitudeF [Add α] [Mul α] (v : Vec3 α) : α :=
  v.x * v.x + v.y * v.y + v.z * v.z

/-- Free function `void normalize(Vec3<T>& v)` (lines 175-186): mutates
`v` in place exactly as the method does and returns nothing; the result
here is the final state of `v`. -/
def normalizeF [LinearOrderedField α] (sqrt : α → α) (v : Vec3 α) : Vec3 α :=
  let len := magnitudeF sqrt v
  if len > 0 then
    let lenInv := 1 / len
    ⟨v.x * lenInv, v.y * lenInv, v.z * lenInv⟩
  else
    v

/-- Free function `T dot(const Vec3<T>& a, const Vec3<T>& b)`
(lines 196-200). -/
def dotF [Add α] [Mul α] (a b : Vec3 α) : α :=
  a.x * b.x + a.y * b.y + a.z * b.z

/-- Free function `Vec3<T> cross(const Vec3<T> a, const Vec3<T>& b)`
(lines 210-217). -/
def crossF [Sub α] [Mul α] (a b : Vec3 α) : Vec3 α :=
  ⟨a.y * b.z - a.z * b.y,
   a.z * b.x - a.x * b.z,
   a.x * b.y - a.y * b.x⟩

/-- The `T = int` instantiation of `T len = sqrt(x*x + y*y + z*z)`
(typedef `Vec3i`, line 121): `std::sqrt` promotes the `int` to `double`
and the assignment truncates the result toward zero.  On the
nonnegative perfect-square inputs used below the `double` computation
is exact, so the truncated value is `Nat.sqrt`. -/
def intSqrt (n : ℤ) : ℤ :=
  Int.ofNat (Nat.sqrt n.toNat)

/-- `magnitude` instantiated at `T = int` (`Vec3i`). -/
def magnitudeInt (v : Vec3 ℤ) : ℤ :=
  intSqrt (v.x * v.x + v.y * v.y + v.z * v.z)

/-- `normalize` instantiated at `T = int` (`Vec3i`): `lenInv = 1 / len`
is C++ integer division, which truncates toward zero; for `len > 0`
both operands are nonnegative, where Lean's `Int` division agrees
with C++. -/
def normalizeInt (v : Vec3 ℤ) : Vec3 ℤ :=
  let len := magnitudeInt v
  if len > 0 then
    let lenInv := 1 / len
    ⟨v.x * lenInv, v.y * lenInv, v.z * lenInv⟩
  else
    v

/-- `operator+` with the final states of both operands made explicit:
the body (line 104) is a single return expression with no assignment to
any field of `*this` or `v`, so both leave as they entered. -/
def Vec3.addFull [Add α] (a v : Vec3 α) : Vec3 α × Vec3 α × Vec3 α :=
  (⟨a.x + v.x, a.y + v.y, a.z + v.z⟩, a, v)

/-- `operator-` with the final states of both operands made explicit
(line 109: single return expression, no field assignment). -/
def Vec3.subFull [Sub α] (a v : Vec3 α) : Vec3 α × Vec3 α × Vec3 α :=
  (⟨a.x - v.x, a.y - v.y, a.z - v.z⟩, a, v)

/-- `operator*` with the final state of the receiver made explicit
(line 114: single return expression, no field assignment). -/
def Vec3.scaleFull [Mul α] (a : Vec3 α) (s : α) : Vec3 α × Vec3 α :=
  (⟨a.x * s, a.y * s, a.z * s⟩, a)

/-- `dot` with the final states of both operands made explicit
(line 83: single return expression, no field assignment). -/
def Vec3.dotFull [Add α] [Mul α] (a v : Vec3 α) : α × Vec3 α × Vec3 α :=
  (a.x * v.x + a.y * v.y + a.z * v.z, a, v)

/-- `cross` with the final states of both operands made explicit
(lines 95-98: single return expression, no field assignment). -/
def Vec3.crossFull [Sub α] [Mul α] (a v : Vec3 α) : Vec3 α × Vec3 α × Vec3 α :=
  (⟨a.y * v.z - a.z * v.y, a.z * v.x - a.x * v.z, a.x * v.y - a.y * v.x⟩, a, v)

/-- `magnitude` with the final state of the receiver made explicit
(line 33: single return expression, no field assignment). -/
def Vec3.magnitudeFull [Add α] [Mul α] (sqrt : α → α) (v : Vec3 α) :
    α × Vec3 α :=
  (sqrt (v.x * v.x + v.y * v.y + v.z * v.z), v)

/-- `sqrMagnitude` with the final state of the receiver made explicit
(line 49: single return expression, no field assignment). -/
def Vec3.sqrMagnitudeFull [Add α] [Mul α] (v : Vec3 α) : α × Vec3 α :=
  (v.x * v.x + v.y * v.y + v.z * v.z, v)

end mfcg

namespace MFCG

/-- `MFCG::Vec3<T>` (src/MFCG/include/Vec3.h, lines 5-16): the minimal
duplicate of the same aggregate of three components. -/
structure Vec3 (α : Type) where
  x : α
  y : α
  z : α
deriving DecidableEq

variable {α : Type}

/-- Default constructor `Vec3() : x(T(0)), y(T(0)), z(T(0))` (line 10). -/
def Vec3.mkZero (α : Type) [Zero α] : Vec3 α := ⟨0, 0, 0⟩

/-- Broadcast constructor `Vec3(const T& t) : x(t), y(t), z(t)` (line 11). -/
def Vec3.mkBroadcast (t : α) : Vec3 α := ⟨t, t, t⟩

/-- Componentwise constructor `Vec3(T _x, T _y, T _z)` (line 12). -/
def Vec3.mkXYZ (x y z : α) : Vec3 α := ⟨x, y, z⟩

end MFCG

namespace mfcg

/-- The evident componentwise correspondence between the two in-repo
versions of `Vec3<T>`. -/
def toMFCG {α : Type} (v : Vec3 α) : MFCG.Vec3 α :=
  ⟨v.x, v.y, v.z⟩

end mfcg

namespace mfcg

/-! Helper computations for the `T = int` instantiation (`Vec3i`). -/

lemma magnitudeInt_340 : magnitudeInt ⟨3, 4, 0⟩ = 5 := by
  simp only [magnitudeInt, intSqrt]
  rw [show Int.toNat (3 * 3 + 4 * 4 + 0 * 0) = 5 * 5 from rfl, Nat.sqrt_eq]
  rfl

lemma normalizeInt_340 : normalizeInt ⟨3, 4, 0⟩ = ⟨0, 0, 0⟩ := by
  simp only [normalizeInt, magnitudeInt_340]
  norm_num

lemma magnitudeInt_004 : magnitudeInt ⟨0, 0, 4⟩ = 4 := by
  simp only [magnitudeInt, intSqrt]
  rw [show Int.toNat (0 * 0 + 0 * 0 + 4 * 4) = 4 * 4 from rfl, Nat.sqrt_eq]
  rfl

lemma normalizeInt_004 : normalizeInt ⟨0, 0, 4⟩ = ⟨0, 0, 0⟩ := by
  simp only [normalizeInt, magnitudeInt_004]
  norm_num

lemma magnitudeInt_zero : magnitudeInt ⟨0, 0, 0⟩ = 0 := by
  simp only [magnitudeInt, intSqrt]
  rw [show Int.toNat (0 * 0 + 0 * 0 + 0 * 0) = 0 * 0 from rfl, Nat.sqrt_eq]
  rfl

/-- C1: for every `Vec3<T>` whose magnitude is not strictly positive (in
particular the zero vector), `normalize` — both the in-place method form
and the free-function form — leaves all three components unchanged: the
`if (len > 0)` guard is not taken, no division happens, and the call is a
silent no-op.  Stated for every ordered-field component type with an
arbitrary square-root operation, and additionally for the `T = int`
instantiation. -/
theorem normalize_nonpos_magnitude_noop {α : Type} [LinearOrderedField α]
    (sqrt : α → α) (v : Vec3 α) (h : ¬ 0 < Vec3.magnitude sqrt v) :
    Vec3.normalize sqrt v = v ∧ normalizeF sqrt v = v ∧
    (∀ w : Vec3 ℤ, ¬ 0 < magnitudeInt w → normalizeInt w = w) := by
  refine ⟨?_, ?_, ?_⟩
  · simp only [Vec3.normalize, if_neg h]
  · simp only [normalizeF]
    rw [if_neg]
    exact h
  · intro w hw
    simp only [normalizeInt, if_neg hw]

/-- Witness for C1 at the zero vector over `ℚ`. -/
theorem normalize_nonpos_magnitude_noop_witness :
    Vec3.normalize (fun q : ℚ => q) ⟨0, 0, 0⟩ = ⟨0, 0, 0⟩ ∧
    normalizeF (fun q : ℚ => q) ⟨0, 0, 0⟩ = ⟨0, 0, 0⟩ := by
  have h := normalize_nonpos_magnitude_noop (fun q : ℚ => q) ⟨0, 0, 0⟩
    (by norm_num [Vec3.magnitude])
  exact ⟨h.1, h.2.1⟩

/-- C2 counterexample: at the `T = int` instantiation (`Vec3i`, a typedef
of this header), the vector `(3,4,0)` has strictly positive magnitude 5,
but `normalize` computes `lenInv = 1 / 5 = 0` by integer division and
zeroes the vector, so the resulting magnitude is 0, not 1. -/
theorem normalize_int_not_unit_counterexample :
    0 < magnitudeInt ⟨3, 4, 0⟩ ∧ magnitudeInt (normalizeInt ⟨3, 4, 0⟩) ≠ 1 := by
  constructor
  · rw [magnitudeInt_340]
    norm_num
  · rw [normalizeInt_340, magnitudeInt_zero]
    norm_num

/-- C2 (amended to field-valued component types, which model the
floating-point instantiations with exact arithmetic): for every
`Vec3 ℝ` with strictly positive magnitude, `normalize` mutates the
vector so that its magnitude becomes exactly 1 — via the method form and
the free-function form alike — and the method form returns the very
state of the mutated receiver, not a different value. -/
theorem normalize_unit_magnitude_real (v : Vec3 ℝ)
    (h : 0 < Vec3.magnitude Real.sqrt v) :
    Vec3.magnitude Real.sqrt (Vec3.normalize Real.sqrt v) = 1 ∧
    Vec3.magnitude Real.sqrt (normalizeF Real.sqrt v) = 1 ∧
    (Vec3.normalizeCall Real.sqrt v).1 = (Vec3.normalizeCall Real.sqrt v).2 := by
  have hs : (0:ℝ) < v.x * v.x + v.y * v.y + v.z * v.z := Real.sqrt_pos.mp h
  have main : Vec3.magnitude Real.sqrt (Vec3.normalize Real.sqrt v) = 1 := by
    set L := Real.sqrt (v.x * v.x + v.y * v.y + v.z * v.z) with hL
    have hL2 : L * L = v.x * v.x + v.y * v.y + v.z * v.z := Real.mul_self_sqrt hs.le
    have hLpos : 0 < L := h
    simp only [Vec3.normalize, Vec3.magnitude, ← hL, if_pos hLpos]
    have hinner : v.x * (1 / L) * (v.x * (1 / L)) + v.y * (1 / L) * (v.y * (1 / L)) +
        v.z * (1 / L) * (v.z * (1 / L)) =
        (v.x * v.x + v.y * v.y + v.z * v.z) / (L * L) := by
      field_simp
    rw [hinner, hL2, div_self hs.ne.symm, Real.sqrt_one]
  exact ⟨main, main, rfl⟩

/-- Witness for the amended C2 at `(3,4,0)` over `ℝ`. -/
theorem normalize_unit_magnitude_real_witness :
    Vec3.magnitude Real.sqrt (Vec3.normalize Real.sqrt ⟨3, 4, 0⟩) = 1 := by
  have hpos : 0 < Vec3.magnitude Real.sqrt (⟨3, 4, 0⟩ : Vec3 ℝ) := by
    show 0 < Real.sqrt (3 * 3 + 4 * 4 + 0 * 0)
    exact Real.sqrt_pos.mpr (by norm_num)
  exact (normalize_unit_magnitude_real ⟨3, 4, 0⟩ hpos).1

/-- C3 counterexample: at the `T = int` instantiation (`Vec3i`), for
`(0,0,4)` with magnitude `len = 4`, multiplication by the truncated
reciprocal `1 / 4 = 0` yields `(0,0,0)`, while elementwise division by
`len` yields `(0/4, 0/4, 4/4) = (0,0,1)`: the two disagree exactly. -/
theorem normalize_reciprocal_ne_div_counterexample :
    0 < magnitudeInt ⟨0, 0, 4⟩ ∧
    normalizeInt ⟨0, 0, 4⟩ ≠
      ⟨0 / magnitudeInt ⟨0, 0, 4⟩, 0 / magnitudeInt ⟨0, 0, 4⟩,
       4 / magnitudeInt ⟨0, 0, 4⟩⟩ := by
  rw [magnitudeInt_004, normalizeInt_004]
  constructor
  · norm_num
  · intro hcontra
    have hz : (0:ℤ) = 4 / 4 := congrArg Vec3.z hcontra
    norm_num at hz

/-- C3 (amended to field-valued component types, where arithmetic is
exact): for every ordered field and square-root operation, if the
magnitude `len` is strictly positive then the components produced by
`normalize`'s multiplication by the reciprocal `1 / len` equal the
components obtained by dividing each component by `len` elementwise. -/
theorem normalize_eq_componentwise_div {α : Type} [LinearOrderedField α]
    (sqrt : α → α) (v : Vec3 α) (h : 0 < Vec3.magnitude sqrt v) :
    Vec3.normalize sqrt v =
      ⟨v.x / Vec3.magnitude sqrt v, v.y / Vec3.magnitude sqrt v,
       v.z / Vec3.magnitude sqrt v⟩ := by
  simp only [Vec3.normalize, if_pos h, mul_one_div]

/-- Witness for the amended C3 at `(0,0,2)` over `ℚ` with the identity
as the square-root operation: magnitude is 4 and both routes give
`(0, 0, 1/2)`. -/
theorem normalize_eq_componentwise_div_witness :
    Vec3.normalize (fun q : ℚ => q) ⟨0, 0, 2⟩ =
      ⟨0 / Vec3.magnitude (fun q : ℚ => q) ⟨0, 0, 2⟩,
       0 / Vec3.magnitude (fun q : ℚ => q) ⟨0, 0, 2⟩,
       2 / Vec3.magnitude (fun q : ℚ => q) ⟨0, 0, 2⟩⟩ :=
  normalize_eq_componentwise_div (fun q : ℚ => q) ⟨0, 0, 2⟩
    (by norm_num [Vec3.magnitude])

end mfcg

namespace mfcg

/-- C4: `magnitude` returns the square root of `x² + y² + z²` and
`sqrMagnitude` returns `x² + y² + z²` with no square root taken, for
every component ring and square-root operation; concretely, over `ℝ`
the vector `(3,4,0)` has magnitude 5 and squared magnitude 25, and the
`T = int` instantiation agrees on the magnitude. -/
theorem magnitude_sqrMagnitude_spec {α : Type} [CommRing α]
    (sqrt : α → α) (v : Vec3 α) :
    Vec3.magnitude sqrt v = sqrt (v.x ^ 2 + v.y ^ 2 + v.z ^ 2) ∧
    Vec3.sqrMagnitude v = v.x ^ 2 + v.y ^ 2 + v.z ^ 2 ∧
    Vec3.magnitude Real.sqrt ⟨3, 4, 0⟩ = 5 ∧
    Vec3.sqrMagnitude (⟨3, 4, 0⟩ : Vec3 ℝ) = 25 ∧
    magnitudeInt ⟨3, 4, 0⟩ = 5 ∧
    Vec3.sqrMagnitude (⟨3, 4, 0⟩ : Vec3 ℤ) = 25 := by
  refine ⟨?_, ?_, ?_, ?_, magnitudeInt_340, by decide⟩
  · show sqrt (v.x * v.x + v.y * v.y + v.z * v.z) = _
    rw [sq, sq, sq]
  · show v.x * v.x + v.y * v.y + v.z * v.z = _
    rw [sq, sq, sq]
  · show Real.sqrt (3 * 3 + 4 * 4 + 0 * 0) = 5
    rw [show (3:ℝ) * 3 + 4 * 4 + 0 * 0 = 5 ^ 2 by norm_num]
    exact Real.sqrt_sq (by norm_num)
  · show (3:ℝ) * 3 + 4 * 4 + 0 * 0 = 25
    norm_num

/-- C5: `dot` returns `a.x*b.x + a.y*b.y + a.z*b.z` and `cross` returns
the new vector `(a.y*b.z - a.z*b.y, a.z*b.x - a.x*b.z, a.x*b.y - a.y*b.x)`
for every component ring; concretely over `ℤ`, for `a = (1,2,3)` and
`b = (4,5,6)`: `dot a b = 32` and `cross a b = (-3,6,-3)`. -/
theorem dot_cross_spec {α : Type} [CommRing α] (a b : Vec3 α) :
    Vec3.dot a b = a.x * b.x + a.y * b.y + a.z * b.z ∧
    Vec3.cross a b =
      ⟨a.y * b.z - a.z * b.y, a.z * b.x - a.x * b.z, a.x * b.y - a.y * b.x⟩ ∧
    Vec3.dot (⟨1, 2, 3⟩ : Vec3 ℤ) ⟨4, 5, 6⟩ = 32 ∧
    Vec3.cross (⟨1, 2, 3⟩ : Vec3 ℤ) ⟨4, 5, 6⟩ = ⟨-3, 6, -3⟩ :=
  ⟨rfl, rfl, by decide, by decide⟩

/-- C6: `operator+` (add), `operator-` (sub) and `operator*` (scale)
return new componentwise sum, difference and scalar-product vectors for
every component ring; concretely over `ℤ`, for `a = (1,2,3)` and
`b = (4,5,6)`: `add a b = (5,7,9)` and `sub a b = (-3,-3,-3)`. -/
theorem add_sub_scale_spec {α : Type} [CommRing α] (a b : Vec3 α) (s : α) :
    Vec3.add a b = ⟨a.x + b.x, a.y + b.y, a.z + b.z⟩ ∧
    Vec3.sub a b = ⟨a.x - b.x, a.y - b.y, a.z - b.z⟩ ∧
    Vec3.scale a s = ⟨a.x * s, a.y * s, a.z * s⟩ ∧
    Vec3.add (⟨1, 2, 3⟩ : Vec3 ℤ) ⟨4, 5, 6⟩ = ⟨5, 7, 9⟩ ∧
    Vec3.sub (⟨1, 2, 3⟩ : Vec3 ℤ) ⟨4, 5, 6⟩ = ⟨-3, -3, -3⟩ :=
  ⟨rfl, rfl, rfl, by decide, by decide⟩

/-- C7: for every operation offered in both forms — `magnitude`,
`sqrMagnitude`, `normalize`, `dot`, `cross` — the method form and the
free-function form produce identical results on every input, and for
`normalize` the mutated states of the argument coincide (the method
additionally returns exactly that mutated state). -/
theorem method_free_function_agree {α : Type} [LinearOrderedField α]
    (sqrt : α → α) (a b v : Vec3 α) :
    magnitudeF sqrt v = Vec3.magnitude sqrt v ∧
    sqrMagnitudeF v = Vec3.sqrMagnitude v ∧
    normalizeF sqrt v = Vec3.normalize sqrt v ∧
    (Vec3.normalizeCall sqrt v).2 = normalizeF sqrt v ∧
    dotF a b = Vec3.dot a b ∧
    crossF a b = Vec3.cross a b :=
  ⟨rfl, rfl, rfl, rfl, rfl, rfl⟩

/-- C8: the state-explicit forms of `add`, `sub`, `scale`, `dot`,
`cross`, `magnitude` and `sqrMagnitude` return every operand in its
initial state alongside the pure result — the bodies are single return
expressions with no assignment — while `normalize` does mutate its
argument, e.g. the `T = int` instantiation sends `(3,4,0)` to a
different vector. -/
theorem operations_no_mutation {α : Type} [CommRing α]
    (sqrt : α → α) (a b : Vec3 α) (s : α) :
    Vec3.addFull a b = (Vec3.add a b, a, b) ∧
    Vec3.subFull a b = (Vec3.sub a b, a, b) ∧
    Vec3.scaleFull a s = (Vec3.scale a s, a) ∧
    Vec3.dotFull a b = (Vec3.dot a b, a, b) ∧
    Vec3.crossFull a b = (Vec3.cross a b, a, b) ∧
    Vec3.magnitudeFull sqrt a = (Vec3.magnitude sqrt a, a) ∧
    Vec3.sqrMagnitudeFull a = (Vec3.sqrMagnitude a, a) ∧
    normalizeInt ⟨3, 4, 0⟩ ≠ ⟨3, 4, 0⟩ := by
  refine ⟨rfl, rfl, rfl, rfl, rfl, rfl, rfl, ?_⟩
  rw [normalizeInt_340]
  intro hcontra
  have hx : (0:ℤ) = 3 := congrArg Vec3.x hcontra
  norm_num at hx

/-- C9: anti-commutativity of the cross product: for every component
ring and all vectors `a, b`, `cross a b = scale (cross b a) (-1)`
componentwise and exactly, in both the method and free-function forms. -/
theorem cross_anticomm {α : Type} [CommRing α] (a b : Vec3 α) :
    Vec3.cross a b = Vec3.scale (Vec3.cross b a) (-1) ∧
    crossF a b = Vec3.scale (crossF b a) (-1) := by
  constructor
  · simp only [Vec3.cross, Vec3.scale, Vec3.mk.injEq]
    refine ⟨by ring, by ring, by ring⟩
  · simp only [crossF, Vec3.scale, Vec3.mk.injEq]
    refine ⟨by ring, by ring, by ring⟩

/-- C10: in both in-repo versions of `Vec3<T>` (`mfcg::Vec3` and
`MFCG::Vec3`), default construction yields `(0,0,0)`, single-scalar
construction from `t` yields `(t,t,t)`, three-scalar construction from
`(x,y,z)` yields exactly `(x,y,z)`, and the corresponding constructors
of the two versions agree componentwise. -/
theorem constructors_spec {α : Type} [Zero α] (t x y z : α) :
    Vec3.mkZero α = (⟨0, 0, 0⟩ : Vec3 α) ∧
    Vec3.mkBroadcast t = (⟨t, t, t⟩ : Vec3 α) ∧
    Vec3.mkXYZ x y z = (⟨x, y, z⟩ : Vec3 α) ∧
    MFCG.Vec3.mkZero α = (⟨0, 0, 0⟩ : MFCG.Vec3 α) ∧
    MFCG.Vec3.mkBroadcast t = (⟨t, t, t⟩ : MFCG.Vec3 α) ∧
    MFCG.Vec3.mkXYZ x y z = (⟨x, y, z⟩ : MFCG.Vec3 α) ∧
    toMFCG (Vec3.mkZero α) = MFCG.Vec3.mkZero α ∧
    toMFCG (Vec3.mkBroadcast t) = MFCG.Vec3.mkBroadcast t ∧
    toMFCG (Vec3.mkXYZ x y z) = MFCG.Vec3.mkXYZ x y z :=
  ⟨rfl, rfl, rfl, rfl, rfl, rfl, rfl, rfl, rfl⟩

end mfcg
